import Mathlib

/-!
Shallow embedding of the CSS Token Normalization and Validation Engine of this
repository: the root-block resolver plus var() reference normalizer implemented
by `post_process_css` together with `NORMALIZATION_MAP`
(src/tmp/test_postprocessor.py), and the `CSSQualityValidator`
(src/tmp/test_css_quality.py).

Strings are modelled as `List Char`.  Every Python regular expression the
source uses is deterministic on its inputs, and each is embedded as an explicit
scanner whose behaviour — including the greedy/backtracking corner cases of
`var(\s*(--ctc-[a-zA-Z0-9-]+)\s*(?:,\s*([^)]+))?\s*\)` (the captured fallback
is the text after the comma-adjacent whitespace up to the FIRST closing
parenthesis, and is non-empty) and of the root-block pattern (a block ends at
the FIRST closing brace) — mirrors the Python `re` semantics.  `\s` is
modelled by the ASCII whitespace characters, the only ones these inputs use.

The first `finditer` loop of the Python `post_process_css` is dead code (its
result is overwritten by `processed = css`), so only the live
`findall`-count / `split`-rebuild path is embedded.
-/

set_option maxRecDepth 40000

namespace CssTokens

/-- Python `\s` on the engine's (ASCII) inputs. -/
def isWs (c : Char) : Bool :=
  c = ' ' || c = '\t' || c = '\n' || c = '\r' || c = '\x0b' || c = '\x0c'

/-- The character class `[a-zA-Z0-9-]` of the var-name capture group. -/
def isNameChar (c : Char) : Bool :=
  ('a' ≤ c && c ≤ 'z') || ('A' ≤ c && c ≤ 'Z') || ('0' ≤ c && c ≤ '9') || c = '-'

/-- Drop a literal prefix, returning the remainder on success. -/
def pfxDrop : List Char → List Char → Option (List Char)
  | [], s => some s
  | _ :: _, [] => none
  | p :: ps, c :: cs => if c = p then pfxDrop ps cs else none

/-- One scanned occurrence of the var-reference pattern: the full matched text,
the captured name (group 1) and the captured fallback (group 2). -/
structure VarM where
  matched : List Char
  name : List Char
  fallback : Option (List Char)
deriving DecidableEq

/-- Attempt the Python pattern `var(\s*(--ctc-[a-zA-Z0-9-]+)\s*(?:,\s*([^)]+))?\s*\)`
anchored at the start of `s`; on success return the match and the rest of the
input.  The fallback branch keeps Python's backtracking outcome: the capture is
everything from after the comma's whitespace up to (excluding) the first `)`,
except that when that span is all whitespace the last whitespace character is
still captured (`[^)]+` needs one character). -/
def tryVarAt (s : List Char) : Option (VarM × List Char) :=
  match pfxDrop "var(".data s with
  | none => none
  | some r0 =>
    let w1 := r0.takeWhile isWs
    let r1 := r0.dropWhile isWs
    match pfxDrop "--ctc-".data r1 with
    | none => none
    | some r2 =>
      let t := r2.takeWhile isNameChar
      let r3 := r2.dropWhile isNameChar
      if t.isEmpty then none else
      let nm := "--ctc-".data ++ t
      let w2 := r3.takeWhile isWs
      let r4 := r3.dropWhile isWs
      match r4 with
      | ')' :: rest =>
        some ({ matched := "var(".data ++ w1 ++ nm ++ w2 ++ [')'],
                name := nm, fallback := none }, rest)
      | ',' :: r5 =>
        let u := r5.takeWhile (fun c => c ≠ ')')
        let r6 := r5.dropWhile (fun c => c ≠ ')')
        match r6 with
        | ')' :: rest =>
          if u.isEmpty then none else
          let k := min (u.takeWhile isWs).length (u.length - 1)
          some ({ matched := "var(".data ++ w1 ++ nm ++ w2 ++ [','] ++ u ++ [')'],
                  name := nm, fallback := some (u.drop k) }, rest)
        | _ => none
      | _ => none

/-- `NORMALIZATION_MAP` of src/tmp/test_postprocessor.py, verbatim. -/
def NORMALIZATION_MAP : List (String × String) :=
  [ ("--ctc-neutral-0", "--ctc-neutral-lightest"),
    ("--ctc-neutral-1", "--ctc-neutral-lightest"),
    ("--ctc-neutral-2", "--ctc-neutral-light"),
    ("--ctc-neutral-3", "--ctc-neutral-light"),
    ("--ctc-neutral-4", "--ctc-neutral-medium"),
    ("--ctc-neutral-5", "--ctc-neutral-medium"),
    ("--ctc-neutral-6", "--ctc-neutral-dark"),
    ("--ctc-neutral-7", "--ctc-neutral-darkest"),
    ("--ctc-neutral-50", "--ctc-neutral-lightest"),
    ("--ctc-neutral-100", "--ctc-neutral-lightest"),
    ("--ctc-neutral-200", "--ctc-neutral-light"),
    ("--ctc-neutral-300", "--ctc-neutral-light"),
    ("--ctc-neutral-400", "--ctc-neutral-medium"),
    ("--ctc-neutral-500", "--ctc-neutral-medium"),
    ("--ctc-neutral-600", "--ctc-neutral-dark"),
    ("--ctc-neutral-700", "--ctc-neutral-dark"),
    ("--ctc-neutral-800", "--ctc-neutral-darkest"),
    ("--ctc-neutral-900", "--ctc-neutral-darkest"),
    ("--ctc-neutral-950", "--ctc-neutral-darkest"),
    ("--ctc-spacing-0", "0"),
    ("--ctc-spacing-1", "--ctc-spacing-xs"),
    ("--ctc-spacing-2", "--ctc-spacing-sm"),
    ("--ctc-spacing-3", "--ctc-spacing-md"),
    ("--ctc-spacing-4", "--ctc-spacing-lg"),
    ("--ctc-spacing-5", "--ctc-spacing-xl"),
    ("--ctc-spacing-6", "--ctc-spacing-2xl"),
    ("--ctc-spacing-8", "--ctc-spacing-3xl"),
    ("--ctc-spacing-9", "--ctc-spacing-3xl"),
    ("--ctc-spacing-10", "--ctc-spacing-3xl"),
    ("--ctc-spacing-11", "--ctc-spacing-3xl"),
    ("--ctc-spacing-12", "--ctc-spacing-3xl"),
    ("--ctc-spacing-14", "--ctc-spacing-3xl"),
    ("--ctc-spacing-16", "--ctc-spacing-3xl"),
    ("--ctc-spacing-20", "--ctc-spacing-3xl"),
    ("--ctc-spacing-24", "--ctc-spacing-3xl"),
    ("--ctc-space-4", "--ctc-spacing-lg"),
    ("--ctc-space-8", "--ctc-spacing-3xl"),
    ("--ctc-radius-0", "0"),
    ("--ctc-radius-1", "--ctc-radius-sm"),
    ("--ctc-radius-2", "--ctc-radius-md") ]

/-- Association-list lookup (Python dict lookup by string key). -/
def mapLookup : List (String × String) → String → Option String
  | [], _ => none
  | (k, v) :: rest, n => if n = k then some v else mapLookup rest n

/-- The Python replacement callback `normalize_var` applied to one match. -/
def normalize_var (vm : VarM) : List Char :=
  match mapLookup NORMALIZATION_MAP (String.mk vm.name) with
  | some v =>
    if (pfxDrop "--".data v.data).isSome then
      match vm.fallback with
      | some f => "var(".data ++ v.data ++ ", ".data ++ f ++ [')']
      | none => "var(".data ++ v.data ++ [')']
    else v.data
  | none => vm.matched

/-- Alternation of literal text and var-pattern matches, as produced by one
left-to-right non-overlapping scan (the traversal shared by `re.sub` and
`re.findall`). -/
inductive VarChunk
  | text : List Char → VarChunk
  | ref : VarM → VarChunk
deriving DecidableEq

/-- Advance over characters where the var pattern does not match, stopping at
the first position where it does (or at the end). -/
def varGap : Nat → List Char → List Char × List Char
  | 0, s => (s, [])
  | _ + 1, [] => ([], [])
  | f + 1, c :: t =>
    if (tryVarAt (c :: t)).isSome then ([], c :: t)
    else
      let p := varGap f t
      (c :: p.1, p.2)

/-- The full left-to-right scan for the var pattern (fuelled by the number of
matches still possible). -/
def varScanGo : Nat → List Char → List VarChunk
  | 0, s => [VarChunk.text s]
  | f + 1, s =>
    let p := varGap s.length s
    match tryVarAt p.2 with
    | some (vm, rest) => VarChunk.text p.1 :: VarChunk.ref vm :: varScanGo f rest
    | none => [VarChunk.text p.1]

def varChunks (css : List Char) : List VarChunk := varScanGo (css.length + 1) css

def renderChunk : VarChunk → List Char
  | VarChunk.text g => g
  | VarChunk.ref vm => normalize_var vm

def rawChunk : VarChunk → List Char
  | VarChunk.text g => g
  | VarChunk.ref vm => vm.matched

def joinChunksWith (f : VarChunk → List Char) : List VarChunk → List Char
  | [] => []
  | ch :: rest => f ch ++ joinChunksWith f rest

/-- The Python `re.sub(var_pattern, normalize_var, css)`. -/
def normalizeVars (css : List Char) : List Char :=
  joinChunksWith renderChunk (varChunks css)

/-- Group-1 captures of `re.findall(var_pattern, css)`. -/
def varNames (css : List Char) : List (List Char) :=
  (varChunks css).filterMap fun ch =>
    match ch with
    | VarChunk.ref vm => some vm.name
    | _ => none

/-- Attempt the prefix `:root\s*\x7b` (the test `re.match(r':root\s*\{', part)`
also used to recognise split delimiters); returns consumed text and rest. -/
def rootHeadParse (s : List Char) : Option (List Char × List Char) :=
  match pfxDrop ":root".data s with
  | none => none
  | some r0 =>
    let w := r0.takeWhile isWs
    let r1 := r0.dropWhile isWs
    match r1 with
    | '\x7b' :: r2 => some (":root".data ++ w ++ ['\x7b'], r2)
    | _ => none

/-- Attempt the Python pattern `:root\s*\x7b[^\x7d]*\x7d` anchored at the start
of `s`: on success return (full match, body capture, rest). -/
def tryRootAt (s : List Char) : Option ((List Char × List Char) × List Char) :=
  match rootHeadParse s with
  | none => none
  | some (h, r) =>
    let b := r.takeWhile (fun c => c ≠ '\x7d')
    let r2 := r.dropWhile (fun c => c ≠ '\x7d')
    match r2 with
    | '\x7d' :: rest => some ((h ++ b ++ ['\x7d'], b), rest)
    | _ => none

/-- Advance over characters where the root pattern does not match, stopping at
the first position where it does (or at the end). -/
def rootGap : Nat → List Char → List Char × List Char
  | 0, s => (s, [])
  | _ + 1, [] => ([], [])
  | f + 1, c :: t =>
    if (tryRootAt (c :: t)).isSome then ([], c :: t)
    else
      let p := rootGap f t
      (c :: p.1, p.2)

/-- One left-to-right scan for the root pattern, returning both the
`re.split`-with-capture part list (gaps and matches interleaved) and the
`re.findall` result as (match, body) pairs. -/
def rootScanGo : Nat → List Char → List (List Char) × List (List Char × List Char)
  | 0, s => ([s], [])
  | f + 1, s =>
    let p := rootGap s.length s
    match tryRootAt p.2 with
    | some ((m, b), rest) =>
      let q := rootScanGo f rest
      (p.1 :: m :: q.1, (m, b) :: q.2)
    | none => ([p.1], [])

/-- `re.split(r'(:root\s*\x7b[^\x7d]*\x7d)', css)`. -/
def rootSplit (css : List Char) : List (List Char) := (rootScanGo (css.length + 1) css).1

/-- `re.findall` of the root pattern with the body capture. -/
def rootBlocks (css : List Char) : List (List Char × List Char) :=
  (rootScanGo (css.length + 1) css).2

/-- The full matched texts of all root blocks (what the Python code counts and
iterates over). -/
def rootMatches (css : List Char) : List (List Char) := (rootBlocks css).map Prod.fst

/-- The body capture of `re.search(r':root\s*\x7b([^\x7d]*)\x7d', css)`:
the first match's group 1. -/
def firstRootBody (css : List Char) : Option (List Char) :=
  ((rootBlocks css).map Prod.snd).head?

/-- The trace comment the post-processor substitutes for stripped blocks. -/
def marker : List Char := "/* [PostProcessor] Stripped duplicate :root */".data

/-- The part test `re.match(r':root\s*\x7b', part)` of the rebuild loop. -/
def rootHeadB (p : List Char) : Bool := (rootHeadParse p).isSome

/-- The rebuild loop of `post_process_css`: keep the first part that looks like
a root block, replace every later such part by the marker comment. -/
def stripRebuild : Bool → List (List Char) → List (List Char)
  | _, [] => []
  | seen, p :: ps =>
    if rootHeadB p then
      (if seen then marker else p) :: stripRebuild true ps
    else p :: stripRebuild seen ps

def joinL : List (List Char) → List Char
  | [] => []
  | x :: xs => x ++ joinL xs

/-- Step 1 of `post_process_css`: strip duplicate root blocks (the live
`findall`-count gate plus `split`-rebuild path of the Python source). -/
def post_root_strip (css : List Char) : List Char :=
  if 1 < (rootMatches css).length then joinL (stripRebuild false (rootSplit css)) else css

/-- The whole repair pass `post_process_css` (root resolution, then var
normalization). -/
def post_process_css (s : String) : String :=
  String.mk (normalizeVars (post_root_strip s.data))

/-- Python `str.strip()` (whitespace at both ends). -/
def stripWs (s : List Char) : List Char :=
  ((s.dropWhile isWs).reverse.dropWhile isWs).reverse

/-- Python `str.lower()` on the engine's ASCII values. -/
def lowerL (s : List Char) : List Char := s.map Char.toLower

/-- Python substring test `needle in hay`, by scanning every position. -/
def containsSubGo : Nat → List Char → List Char → Bool
  | 0, _, _ => false
  | f + 1, nd, s =>
    if (pfxDrop nd s).isSome then true
    else
      match s with
      | [] => false
      | _ :: t => containsSubGo f nd t

def containsSub (hay nd : List Char) : Bool := containsSubGo (hay.length + 1) nd hay

/-- `re.search(r'--ctc-primary:\s*([^;]+)', s)`: first position where the
pattern matches; returns the raw group-1 capture. -/
def primarySearchGo : Nat → List Char → Option (List Char)
  | 0, _ => none
  | f + 1, s =>
    match pfxDrop "--ctc-primary:".data s with
    | some r =>
      let u := r.takeWhile (fun c => c ≠ ';')
      if u.isEmpty then
        match s with
        | [] => none
        | _ :: t => primarySearchGo f t
      else
        let k := min (u.takeWhile isWs).length (u.length - 1)
        some (u.drop k)
    | none =>
      match s with
      | [] => none
      | _ :: t => primarySearchGo f t

/-- The `--ctc-primary` value of one root-block match: captured, stripped,
lowercased (as in `match.group(1).strip().lower()`). -/
def primaryValue (m : List Char) : Option (List Char) :=
  (primarySearchGo (m.length + 1) m).map fun v => lowerL (stripWs v)

/-- The `primaries` list of `_check_duplicate_roots`: the found values of all
root-block matches, in scan order, duplicates kept. -/
def primaries (css : List Char) : List (List Char) :=
  (rootMatches css).filterMap primaryValue

def insertIfAbsent (x : List Char) (xs : List (List Char)) : List (List Char) :=
  if x ∈ xs then xs else xs ++ [x]

/-- The distinct elements in first-seen order (so its length is Python's
`len(set(vs))`). -/
def distinctL (vs : List (List Char)) : List (List Char) :=
  vs.foldl (fun acc v => insertIfAbsent v acc) []

def sq : Char := Char.ofNat 39

/-- Python `str(list_of_strings)`, e.g. a bracketed, comma-separated list of
single-quoted items. -/
def pyStrList (vs : List (List Char)) : List Char :=
  '[' :: joinL (List.intersperse ", ".data (vs.map fun v => sq :: (v ++ [sq]))) ++ [']']

/-- `VALID_VARIABLES` of src/tmp/test_css_quality.py, verbatim. -/
def VALID_VARIABLES : List String :=
  [ "--ctc-primary", "--ctc-primary-light", "--ctc-primary-dark",
    "--ctc-secondary", "--ctc-accent",
    "--ctc-neutral-darkest", "--ctc-neutral-dark", "--ctc-neutral-medium",
    "--ctc-neutral-light", "--ctc-neutral-lightest",
    "--ctc-success", "--ctc-warning", "--ctc-error", "--ctc-info",
    "--ctc-font-heading", "--ctc-font-body",
    "--ctc-font-size-base", "--ctc-font-scale-ratio",
    "--ctc-heading-weight", "--ctc-body-weight", "--ctc-body-line-height",
    "--ctc-font-size-xs", "--ctc-font-size-sm", "--ctc-font-size-md",
    "--ctc-font-size-lg", "--ctc-font-size-xl", "--ctc-font-size-2xl", "--ctc-font-size-3xl",
    "--ctc-spacing-unit",
    "--ctc-spacing-xs", "--ctc-spacing-sm", "--ctc-spacing-md",
    "--ctc-spacing-lg", "--ctc-spacing-xl", "--ctc-spacing-2xl", "--ctc-spacing-3xl",
    "--ctc-radius-sm", "--ctc-radius-md", "--ctc-radius-lg", "--ctc-radius-full",
    "--ctc-shadow-card", "--ctc-shadow-button", "--ctc-shadow-elevated",
    "--ctc-transition-speed", "--ctc-easing" ]

def headDigit : List Char → Bool
  | [] => false
  | c :: _ => c.isDigit

/-- The negative lookahead `(?!-)`: succeeds at end of string or before any
character other than a dash. -/
def notDash : List Char → Bool
  | [] => true
  | c :: _ => c ≠ '-'

/-- `re.match(p, name)` for some `p` among `INVALID_PATTERNS` of
src/tmp/test_css_quality.py (`re.match` anchors at the start only; `$` anchors
the end where the pattern has it). -/
def invalidPattern (n : List Char) : Bool :=
  (match pfxDrop "--ctc-neutral-".data n with
   | some r => headDigit r
   | none => false) ||
  (match pfxDrop "--ctc-spacing-".data n with
   | some r => !r.isEmpty && r.all Char.isDigit
   | none => false) ||
  (match pfxDrop "--ctc-radius-".data n with
   | some r => !r.isEmpty && r.all Char.isDigit
   | none => false) ||
  (match pfxDrop "--ctc-space-".data n with
   | some r => headDigit r
   | none => false) ||
  (match pfxDrop "--ctc-text".data n with
   | some r => notDash r
   | none => false) ||
  (match pfxDrop "--ctc-bg".data n with
   | some r => notDash r
   | none => false) ||
  (pfxDrop "--ctc-font-display".data n).isSome ||
  (pfxDrop "--ctc-rounded".data n).isSome

/-- Total lexicographic order on strings by code point (Python `<` on `str`). -/
def lexLe : List Char → List Char → Bool
  | [], _ => true
  | _ :: _, [] => false
  | a :: as, b :: bs => if a = b then lexLe as bs else decide (a < b)

def insertSorted (x : List Char) : List (List Char) → List (List Char)
  | [] => [x]
  | y :: ys => if lexLe x y then x :: y :: ys else y :: insertSorted x ys

/-- Python `sorted` on a set of distinct strings. -/
def sortLex (vs : List (List Char)) : List (List Char) := vs.foldr insertSorted []

/-- The per-name loop of `_check_invalid_variables`: accumulate the
`invalid_vars` set and the Unknown-variable warnings, in order. -/
def invScan : List (List Char) → List (List Char) → List String →
    List (List Char) × List String
  | [], set, ws => (set, ws)
  | n :: rest, set, ws =>
    let set2 := if invalidPattern n then insertIfAbsent n set else set
    let ws2 :=
      if String.mk n ∈ VALID_VARIABLES || n ∈ set2 then ws
      else ws ++ ["Unknown variable: " ++ String.mk n]
    invScan rest set2 ws2

def invalidVarsSet (css : List Char) : List (List Char) :=
  (invScan (varNames css) [] []).1

def invalidVarIssues (css : List Char) : List String :=
  let set := invalidVarsSet css
  if set.isEmpty then []
  else
    [ "CRITICAL: Found " ++ Nat.repr set.length ++ " invalid CSS variables: " ++
      String.mk (joinL (List.intersperse ", ".data (sortLex set))) ]

def invalidVarWarnings (css : List Char) : List String :=
  (invScan (varNames css) [] []).2

/-- The conflicting-values message of `_check_duplicate_roots`. -/
def conflictMsg (ps : List (List Char)) : String :=
  "CRITICAL: Brand color --ctc-primary has conflicting values: " ++
    String.mk (pyStrList ps)

/-- `_check_duplicate_roots`: its contributed issues, in order. -/
def dupRootIssues (css : List Char) : List String :=
  let rs := rootMatches css
  if 1 < rs.length then
    let ps := primaries css
    ["CRITICAL: Found " ++ Nat.repr rs.length ++ " :root declarations (should be 1)"] ++
      (if 1 < (distinctL ps).length then [conflictMsg ps] else [])
  else []

def noRootMsg : String := "CRITICAL: No :root declaration found"

/-- `_check_brand_colors`: its contributed issues. -/
def brandColorIssues (css : List Char) : List String :=
  match firstRootBody css with
  | none => [noRootMsg]
  | some _ => []

/-- `_check_brand_colors`: its contributed warnings, in order. -/
def brandColorWarnings (css : List Char) : List String :=
  match firstRootBody css with
  | none => []
  | some b =>
    (["--ctc-primary", "--ctc-secondary", "--ctc-accent"].filter
        fun c => !containsSub b c.data).map
      fun c => "Missing recommended color: " ++ c

/-- `_check_typography`: its contributed warnings, in order. -/
def typographyWarnings (css : List Char) : List String :=
  match firstRootBody css with
  | none => []
  | some b =>
    (if containsSub b "Arial, sans-serif".data ||
        containsSub css "font-family: Arial".data then
      ["Typography uses generic Arial - may not match brand"]
    else []) ++
    (if containsSub b "--ctc-font-heading".data then []
     else ["Missing --ctc-font-heading definition"]) ++
    (if containsSub b "--ctc-font-body".data then []
     else ["Missing --ctc-font-body definition"])

def isHexDigit (c : Char) : Bool :=
  c.isDigit || ('a' ≤ c && c ≤ 'f') || ('A' ≤ c && c ≤ 'F')

def pickColorPfx (s : List Char) : Option (List Char) :=
  match pfxDrop "color:".data s with
  | some r => some r
  | none =>
    match pfxDrop "background:".data s with
    | some r => some r
    | none => pfxDrop "border-color:".data s

/-- Attempt `(?:color|background|border-color):\s*(#[0-9a-fA-F]\x7b3,6\x7d)`
anchored at the start of `s`; on success return the rest after the match. -/
def tryColorAt (s : List Char) : Option (List Char) :=
  match pickColorPfx s with
  | none => none
  | some r =>
    let r1 := r.dropWhile isWs
    match r1 with
    | '#' :: r2 =>
      let run := r2.takeWhile isHexDigit
      if 3 ≤ run.length then some (r2.drop (min run.length 6)) else none
    | _ => none

/-- Number of matches of the hardcoded-colour pattern (`re.findall` length). -/
def hcCount : Nat → List Char → Nat
  | 0, _ => 0
  | f + 1, s =>
    match tryColorAt s with
    | some rest => 1 + hcCount f rest
    | none =>
      match s with
      | [] => 0
      | _ :: t => hcCount f t

/-- `_check_generic_styles`: its contributed warnings. -/
def genericWarnings (css : List Char) : List String :=
  let n := hcCount (css.length + 1) css
  if 10 < n then ["Found " ++ Nat.repr n ++ " hardcoded colors - should use CSS variables"]
  else []

/-- The dictionary returned by `CSSQualityValidator.validate`. -/
structure Report where
  passed : Bool
  issues : List String
  warnings : List String
  score : Int
deriving DecidableEq

/-- `CSSQualityValidator(css).validate()`: run the five checks in order and
assemble the report. -/
def validate (s : String) : Report :=
  let css := s.data
  let issues := dupRootIssues css ++ invalidVarIssues css ++ brandColorIssues css
  let warnings := invalidVarWarnings css ++ brandColorWarnings css ++
    typographyWarnings css ++ genericWarnings css
  { passed := issues.isEmpty
    issues := issues
    warnings := warnings
    score := max 0 (100 - 25 * (issues.length : Int) - 5 * (warnings.length : Int)) }

/-! Soundness of the scanners: every successful match reconstructs the input,
and the left-to-right scans partition the input into their parts. -/

theorem pfxDrop_sound : ∀ (p s r : List Char), pfxDrop p s = some r → s = p ++ r := by
  intro p
  induction p with
  | nil =>
    intro s r h
    simp only [pfxDrop, Option.some.injEq] at h
    simp [h]
  | cons a as ih =>
    intro s r h
    cases s with
    | nil => exact absurd h (by simp [pfxDrop])
    | cons c cs =>
      simp only [pfxDrop] at h
      split at h
      · next hc =>
        subst hc
        have := ih cs r h
        simp [this]
      · exact absurd h (by simp)

theorem pfxDrop_self : ∀ (p x : List Char), pfxDrop p (p ++ x) = some x := by
  intro p
  induction p with
  | nil => intro x; simp [pfxDrop]
  | cons a as ih => intro x; simp [pfxDrop, ih]

theorem takeWhile_stop {p : Char → Bool} :
    ∀ (l : List Char) (c : Char) (y : List Char), (∀ a ∈ l, p a = true) → p c = false →
      (l ++ c :: y).takeWhile p = l ∧ (l ++ c :: y).dropWhile p = c :: y := by
  intro l
  induction l with
  | nil =>
    intro c y _ hc
    constructor <;> simp [List.takeWhile, List.dropWhile, hc]
  | cons a as ih =>
    intro c y hall hc
    have ha : p a = true := hall a (by simp)
    have h2 := ih c y (fun x hx => hall x (by simp [hx])) hc
    constructor <;> simp [List.takeWhile, List.dropWhile, ha, h2.1, h2.2]

theorem tryVarAt_sound {s : List Char} {vm : VarM} {r : List Char}
    (h : tryVarAt s = some (vm, r)) : s = vm.matched ++ r := by
  unfold tryVarAt at h
  cases h0 : pfxDrop "var(".data s with
  | none => rw [h0] at h; exact absurd h (by simp)
  | some r0 =>
    rw [h0] at h
    cases h1 : pfxDrop "--ctc-".data (r0.dropWhile isWs) with
    | none =>
      simp only [h1] at h
      exact Option.noConfusion h
    | some r2 =>
      simp only [h1] at h
      split at h
      · exact absurd h (by simp)
      · next hte =>
        have hs : s = "var(".data ++ r0 := pfxDrop_sound _ _ _ h0
        have hr0 : r0 = r0.takeWhile isWs ++ r0.dropWhile isWs :=
          (List.takeWhile_append_dropWhile isWs r0).symm
        have hr1 : r0.dropWhile isWs = "--ctc-".data ++ r2 := pfxDrop_sound _ _ _ h1
        have hr2 : r2 = r2.takeWhile isNameChar ++ r2.dropWhile isNameChar :=
          (List.takeWhile_append_dropWhile isNameChar r2).symm
        have hr3 : r2.dropWhile isNameChar =
            (r2.dropWhile isNameChar).takeWhile isWs ++
              (r2.dropWhile isNameChar).dropWhile isWs :=
          (List.takeWhile_append_dropWhile isWs (r2.dropWhile isNameChar)).symm
        split at h
        · next rest4 h4 =>
          simp only [Option.some.injEq, Prod.mk.injEq] at h
          obtain ⟨hvm, hrest⟩ := h
          subst hvm
          subst hrest
          have e2 : r0 = r0.takeWhile isWs ++ ("--ctc-".data ++
              (r2.takeWhile isNameChar ++
                ((r2.dropWhile isNameChar).takeWhile isWs ++ (')' :: rest4)))) := by
            conv_lhs => rw [hr0, hr1]
            conv_lhs => rw [hr2]
            conv_lhs => rw [hr3]
            rw [h4]
          rw [hs]
          conv_lhs => rw [e2]
          simp [List.append_assoc]
        · next r5 h4 =>
          cases h6 : (r5.dropWhile fun c => c ≠ ')') with
          | nil =>
            simp only [h6] at h
            exact Option.noConfusion h
          | cons c6 rest6 =>
            simp only [h6] at h
            split at h
            · next hrp =>
              injection hrp with hc6 hrest6
              subst hc6
              subst hrest6
              split at h
              · exact absurd h (by simp)
              · simp only [Option.some.injEq, Prod.mk.injEq] at h
                obtain ⟨hvm, hrest⟩ := h
                subst hvm
                subst hrest
                have hr5 : r5 = (r5.takeWhile fun c => c ≠ ')') ++
                    (r5.dropWhile fun c => c ≠ ')') :=
                  (List.takeWhile_append_dropWhile _ r5).symm
                have e2 : r0 = r0.takeWhile isWs ++ ("--ctc-".data ++
                    (r2.takeWhile isNameChar ++
                      ((r2.dropWhile isNameChar).takeWhile isWs ++ (',' ::
                        ((r5.takeWhile fun c => c ≠ ')') ++ (')' :: rest6)))))) := by
                  conv_lhs => rw [hr0, hr1]
                  conv_lhs => rw [hr2]
                  conv_lhs => rw [hr3]
                  rw [h4]
                  conv_lhs => rw [hr5]
                  rw [h6]
                rw [hs]
                conv_lhs => rw [e2]
                simp [List.append_assoc]
            · exact Option.noConfusion h
        · exact Option.noConfusion h

theorem rootHeadParse_sound {s hd rest : List Char}
    (h : rootHeadParse s = some (hd, rest)) :
    ∃ w, s = hd ++ rest ∧ hd = ":root".data ++ w ++ ['\x7b'] ∧
      (∀ a ∈ w, isWs a = true) := by
  unfold rootHeadParse at h
  cases h3 : pfxDrop ":root".data s with
  | none =>
    simp only [h3] at h
    exact Option.noConfusion h
  | some r0 =>
    simp only [h3] at h
    split at h
    · next r1 h4 =>
      simp only [Option.some.injEq, Prod.mk.injEq] at h
      obtain ⟨hh, hrr⟩ := h
      subst hh
      subst hrr
      have hs0 : s = ":root".data ++ r0 := pfxDrop_sound _ _ _ h3
      refine ⟨r0.takeWhile isWs, ?_, rfl, fun a ha => List.mem_takeWhile_imp ha⟩
      conv_lhs => rw [hs0]
      conv_lhs =>
        rw [show r0 = r0.takeWhile isWs ++ r0.dropWhile isWs from
          (List.takeWhile_append_dropWhile isWs r0).symm]
      rw [h4]
      simp [List.append_assoc]
    · exact absurd h (by simp)

theorem rootHeadParse_make (w x : List Char) (hw : ∀ a ∈ w, isWs a = true) :
    rootHeadParse (":root".data ++ w ++ ('\x7b' :: x)) =
      some (":root".data ++ w ++ ['\x7b'], x) := by
  unfold rootHeadParse
  rw [show ":root".data ++ w ++ ('\x7b' :: x) = ":root".data ++ (w ++ ('\x7b' :: x)) from
    by simp [List.append_assoc]]
  rw [pfxDrop_self]
  have hst := takeWhile_stop w '\x7b' x hw (by decide)
  simp [hst.1, hst.2, List.append_assoc]

theorem tryRootAt_sound {s m b : List Char} {r : List Char}
    (h : tryRootAt s = some ((m, b), r)) :
    s = m ++ r ∧ m = m.dropLast ++ ['\x7d'] ∧ rootHeadB m = true := by
  unfold tryRootAt at h
  cases h0 : rootHeadParse s with
  | none => rw [h0] at h; exact absurd h (by simp)
  | some hr =>
    obtain ⟨hd, rest⟩ := hr
    rw [h0] at h
    cases h2 : (rest.dropWhile fun c => c ≠ '\x7d') with
    | nil =>
      simp only [h2] at h
      exact Option.noConfusion h
    | cons c2 rest2 =>
      simp only [h2] at h
      split at h
      · next hcb =>
        injection hcb with hc2 hrest2
        subst hc2
        subst hrest2
        simp only [Option.some.injEq, Prod.mk.injEq] at h
        obtain ⟨⟨hm, _⟩, hrest⟩ := h
        subst hrest
        obtain ⟨w, hsr, hhd, hws⟩ := rootHeadParse_sound h0
        have hb : rest = (rest.takeWhile fun c => c ≠ '\x7d') ++
            (rest.dropWhile fun c => c ≠ '\x7d') :=
          (List.takeWhile_append_dropWhile _ rest).symm
        have hsm : s = m ++ rest2 := by
          rw [hsr, ← hm]
          conv_lhs => rw [hb]
          rw [h2]
          simp [List.append_assoc]
        refine ⟨hsm, ?_, ?_⟩
        · rw [← hm]
          have : hd ++ (rest.takeWhile fun c => c ≠ '\x7d') ++ ['\x7d'] =
              (hd ++ (rest.takeWhile fun c => c ≠ '\x7d')) ++ ['\x7d'] := by
            simp [List.append_assoc]
          rw [this, List.dropLast_concat]
        · rw [← hm, hhd]
          unfold rootHeadB
          have h5 : ((":root".data ++ w ++ ['\x7b']) ++
              (rest.takeWhile fun c => c ≠ '\x7d') ++ ['\x7d']) =
              ":root".data ++ w ++ ('\x7b' ::
                ((rest.takeWhile fun c => c ≠ '\x7d') ++ ['\x7d'])) := by
            simp [List.append_assoc]
          rw [h5, rootHeadParse_make w _ hws]
          rfl
      · exact Option.noConfusion h

theorem varGap_join : ∀ (f : Nat) (s : List Char), (varGap f s).1 ++ (varGap f s).2 = s := by
  intro f
  induction f with
  | zero => intro s; simp [varGap]
  | succ f ih =>
    intro s
    cases s with
    | nil => simp [varGap]
    | cons c t =>
      by_cases hc : (tryVarAt (c :: t)).isSome = true
      · simp [varGap, hc]
      · simp [varGap, hc, ih t]

theorem varGap_cases : ∀ (f : Nat) (s : List Char),
    (varGap f s).2 = [] ∨ (tryVarAt (varGap f s).2).isSome = true := by
  intro f
  induction f with
  | zero => intro s; exact Or.inl rfl
  | succ f ih =>
    intro s
    cases s with
    | nil => exact Or.inl rfl
    | cons c t =>
      by_cases hc : (tryVarAt (c :: t)).isSome = true
      · right
        simp [varGap, hc]
      · simpa [varGap, hc] using ih t

theorem varScan_raw : ∀ (f : Nat) (s : List Char),
    joinChunksWith rawChunk (varScanGo f s) = s := by
  intro f
  induction f with
  | zero => intro s; simp [varScanGo, joinChunksWith, rawChunk]
  | succ f ih =>
    intro s
    have hg := varGap_join s.length s
    cases hv : tryVarAt (varGap s.length s).2 with
    | none =>
      have h2 : (varGap s.length s).2 = [] := by
        rcases varGap_cases s.length s with h | h
        · exact h
        · rw [hv] at h; simp at h
      simp only [varScanGo, hv, joinChunksWith, rawChunk]
      conv_rhs => rw [← hg]
      rw [h2]
    | some pr =>
      obtain ⟨vm, rest⟩ := pr
      have hs := tryVarAt_sound hv
      simp only [varScanGo, hv, joinChunksWith, rawChunk]
      rw [ih rest]
      conv_rhs => rw [← hg]
      rw [hs]

theorem rootGap_join : ∀ (f : Nat) (s : List Char),
    (rootGap f s).1 ++ (rootGap f s).2 = s := by
  intro f
  induction f with
  | zero => intro s; simp [rootGap]
  | succ f ih =>
    intro s
    cases s with
    | nil => simp [rootGap]
    | cons c t =>
      by_cases hc : (tryRootAt (c :: t)).isSome = true
      · simp [rootGap, hc]
      · simp [rootGap, hc, ih t]

theorem rootGap_cases : ∀ (f : Nat) (s : List Char),
    (rootGap f s).2 = [] ∨ (tryRootAt (rootGap f s).2).isSome = true := by
  intro f
  induction f with
  | zero => intro s; exact Or.inl rfl
  | succ f ih =>
    intro s
    cases s with
    | nil => exact Or.inl rfl
    | cons c t =>
      by_cases hc : (tryRootAt (c :: t)).isSome = true
      · right
        simp [rootGap, hc]
      · simpa [rootGap, hc] using ih t

theorem rootScan_join : ∀ (f : Nat) (s : List Char), joinL ((rootScanGo f s).1) = s := by
  intro f
  induction f with
  | zero => intro s; simp [rootScanGo, joinL]
  | succ f ih =>
    intro s
    have hg := rootGap_join s.length s
    cases hv : tryRootAt (rootGap s.length s).2 with
    | none =>
      have h2 : (rootGap s.length s).2 = [] := by
        rcases rootGap_cases s.length s with h | h
        · exact h
        · rw [hv] at h; simp at h
      simp only [rootScanGo, hv, joinL]
      conv_rhs => rw [← hg]
      rw [h2]
    | some pr =>
      obtain ⟨mb, rest⟩ := pr
      obtain ⟨m, b⟩ := mb
      have hs := (tryRootAt_sound hv).1
      simp only [rootScanGo, hv, joinL]
      rw [ih rest]
      conv_rhs => rw [← hg]
      rw [hs]

/-! Helper facts used to reason about the rebuild loop: the text before a match
never itself begins like a root block. -/

theorem dropWhile_mem {a : Char} : ∀ (l : List Char), a ∈ l →
    ∃ cs, l.dropWhile (fun c => c ≠ a) = a :: cs := by
  intro l
  induction l with
  | nil => intro h; exact absurd h (by simp)
  | cons c t ih =>
    intro h
    by_cases hc : c = a
    · subst hc
      exact ⟨t, by simp [List.dropWhile]⟩
    · have ht : a ∈ t := by
        rcases List.mem_cons.mp h with h1 | h1
        · exact absurd h1.symm hc
        · exact h1
      obtain ⟨cs, hcs⟩ := ih ht
      refine ⟨cs, ?_⟩
      simpa [List.dropWhile, hc] using hcs

theorem tryRootAt_isSome_of {s hd rest : List Char}
    (hh : rootHeadParse s = some (hd, rest)) (hm : '\x7d' ∈ rest) :
    (tryRootAt s).isSome = true := by
  unfold tryRootAt
  rw [hh]
  obtain ⟨cs, hcs⟩ := dropWhile_mem rest hm
  have hcs2 : rest.dropWhile (fun c => !decide (c = '\x7d')) = '\x7d' :: cs := by
    simpa using hcs
  simp [hcs2]

theorem rootHeadParse_extend {x hd rest : List Char} (y : List Char)
    (h : rootHeadParse x = some (hd, rest)) :
    rootHeadParse (x ++ y) = some (hd, rest ++ y) := by
  obtain ⟨w, hx, hhd, hw⟩ := rootHeadParse_sound h
  have hxy : x ++ y = ":root".data ++ w ++ ('\x7b' :: (rest ++ y)) := by
    rw [hx, hhd]
    simp [List.append_assoc]
  rw [hxy, rootHeadParse_make w _ hw, ← hhd]

theorem rootGap_fail : ∀ (f : Nat) (s g r : List Char), rootGap f s = (g, r) →
    (tryRootAt r).isSome = true → g ≠ [] → tryRootAt s = none := by
  intro f s g r hg hr hne
  cases f with
  | zero =>
    simp only [rootGap] at hg
    obtain ⟨_, h2⟩ := Prod.mk.injEq .. ▸ hg
    rw [← h2] at hr
    simp [tryRootAt, rootHeadParse, pfxDrop] at hr
  | succ f =>
    cases s with
    | nil =>
      simp only [rootGap] at hg
      obtain ⟨h1, _⟩ := Prod.mk.injEq .. ▸ hg
      exact absurd h1.symm hne
    | cons c t =>
      by_cases hc : (tryRootAt (c :: t)).isSome = true
      · simp only [rootGap, if_pos hc] at hg
        obtain ⟨h1, _⟩ := Prod.mk.injEq .. ▸ hg
        exact absurd h1.symm hne
      · exact Option.not_isSome_iff_eq_none.mp hc

theorem rootGap_not_head : ∀ (f : Nat) (s g r : List Char), rootGap f s = (g, r) →
    (tryRootAt r).isSome = true → rootHeadB g = false := by
  intro f s g r hg hr
  by_cases hne : g = []
  · subst hne
    decide
  · have hfail : tryRootAt s = none := rootGap_fail f s g r hg hr hne
    by_contra hcon
    have hB : rootHeadB g = true := by
      cases hB2 : rootHeadB g
      · exact absurd hB2 hcon
      · rfl
    unfold rootHeadB at hB
    cases hh : rootHeadParse g with
    | none => rw [hh] at hB; simp at hB
    | some pr =>
      obtain ⟨hd, restg⟩ := pr
      have hjoin : g ++ r = s := by
        have := rootGap_join f s
        rw [hg] at this
        exact this
      obtain ⟨vm2, hv2⟩ := Option.isSome_iff_exists.mp hr
      obtain ⟨⟨m, b⟩, r2⟩ := vm2
      have hsound := tryRootAt_sound hv2
      have hm_in : '\x7d' ∈ m := by
        have h9 : '\x7d' ∈ m.dropLast ++ ['\x7d'] := by simp
        rw [← hsound.2.1] at h9
        exact h9
      have hmem : '\x7d' ∈ r := by
        rw [hsound.1]
        exact List.mem_append.mpr (Or.inl hm_in)
      have hhx : rootHeadParse s = some (hd, restg ++ r) := by
        rw [← hjoin]
        exact rootHeadParse_extend r hh
      have h10 := tryRootAt_isSome_of hhx (List.mem_append.mpr (Or.inr hmem))
      rw [hfail] at h10
      simp at h10

/-! The normalizer is the identity on text whose references all lack a
normalization-table entry. -/

theorem joinChunks_id (chs : List VarChunk)
    (h : ∀ vm, VarChunk.ref vm ∈ chs →
      mapLookup NORMALIZATION_MAP (String.mk vm.name) = none) :
    joinChunksWith renderChunk chs = joinChunksWith rawChunk chs := by
  induction chs with
  | nil => rfl
  | cons ch rest ih =>
    have ih2 := ih fun vm hm => h vm (List.mem_cons_of_mem _ hm)
    cases ch with
    | text g => simp [joinChunksWith, renderChunk, rawChunk, ih2]
    | ref vm =>
      have hl := h vm (List.mem_cons_self _ _)
      simp [joinChunksWith, renderChunk, rawChunk, normalize_var, hl, ih2]

theorem name_mem_varNames {css : List Char} {vm : VarM}
    (h : VarChunk.ref vm ∈ varChunks css) : vm.name ∈ varNames css := by
  unfold varNames
  exact List.mem_filterMap.mpr ⟨VarChunk.ref vm, h, rfl⟩

theorem normalizeVars_id {css : List Char}
    (h : ∀ n ∈ varNames css, mapLookup NORMALIZATION_MAP (String.mk n) = none) :
    normalizeVars css = css := by
  unfold normalizeVars
  rw [joinChunks_id _ fun vm hm => h vm.name (name_mem_varNames hm)]
  exact varScan_raw _ _

theorem strMk_data (s : String) : String.mk s.data = s := rfl

/-! Counting lemmas for the rebuild loop. -/

/-- Number of parts that pass the root-prefix test of the rebuild loop. -/
def countHeads (ps : List (List Char)) : Nat := (ps.filter rootHeadB).length

/-- Number of parts equal to a given text. -/
def countEq (x : List Char) (ps : List (List Char)) : Nat :=
  (ps.filter fun p => p = x).length

theorem marker_not_head : rootHeadB marker = false := by decide

theorem countHeads_cons (x : List Char) (xs : List (List Char)) :
    countHeads (x :: xs) = (if rootHeadB x then 1 else 0) + countHeads xs := by
  unfold countHeads
  by_cases hx : rootHeadB x = true <;> simp [List.filter_cons, hx, Nat.add_comm]

theorem countEq_cons (y x : List Char) (xs : List (List Char)) :
    countEq y (x :: xs) = (if x = y then 1 else 0) + countEq y xs := by
  unfold countEq
  by_cases hx : x = y <;> simp [List.filter_cons, hx, Nat.add_comm]

theorem countHeads_strip_true : ∀ ps, countHeads (stripRebuild true ps) = 0 := by
  intro ps
  induction ps with
  | nil => rfl
  | cons p rest ih =>
    by_cases hp : rootHeadB p = true
    · simp [stripRebuild, hp, countHeads_cons, marker_not_head, ih]
    · simp [stripRebuild, hp, countHeads_cons, ih]

theorem countHeads_strip_false : ∀ ps,
    countHeads (stripRebuild false ps) = min 1 (countHeads ps) := by
  intro ps
  induction ps with
  | nil => rfl
  | cons p rest ih =>
    by_cases hp : rootHeadB p = true
    · simp [stripRebuild, hp, countHeads_cons, marker_not_head, countHeads_strip_true rest]
    · simp [stripRebuild, hp, countHeads_cons, ih]

theorem head_ne_marker {p : List Char} (hp : rootHeadB p = true) : p ≠ marker := by
  intro hcon
  rw [hcon, marker_not_head] at hp
  exact Bool.false_ne_true hp

theorem countEq_marker_strip_true : ∀ ps,
    countEq marker (stripRebuild true ps) = countHeads ps + countEq marker ps := by
  intro ps
  induction ps with
  | nil => rfl
  | cons p rest ih =>
    by_cases hp : rootHeadB p = true
    · have hne : ¬(p = marker) := head_ne_marker hp
      simp [stripRebuild, hp, countHeads_cons, countEq_cons, hne, marker_not_head, ih]
      omega
    · by_cases hm : p = marker
      · simp [stripRebuild, hp, countHeads_cons, countEq_cons, hm, marker_not_head, ih]
        omega
      · simp [stripRebuild, hp, countHeads_cons, countEq_cons, hm, marker_not_head, ih]

theorem countEq_marker_strip_false : ∀ ps, 1 ≤ countHeads ps →
    countEq marker (stripRebuild false ps) = countHeads ps - 1 + countEq marker ps := by
  intro ps
  induction ps with
  | nil => intro h; simp [countHeads] at h
  | cons p rest ih =>
    intro h
    by_cases hp : rootHeadB p = true
    · have hne : ¬(p = marker) := head_ne_marker hp
      simp [stripRebuild, hp, countHeads_cons, countEq_cons, hne, marker_not_head,
        countEq_marker_strip_true rest]
    · have h1 : 1 ≤ countHeads rest := by
        rw [countHeads_cons] at h
        simpa [hp] using h
      by_cases hm : p = marker
      · simp [stripRebuild, hp, countHeads_cons, countEq_cons, hm, marker_not_head, ih h1]
        omega
      · simp [stripRebuild, hp, countHeads_cons, countEq_cons, hm, marker_not_head, ih h1]

/-- The one-step shape of the scan when at least one root block matches. -/
theorem rootScan_shape {css : List Char} (h : rootBlocks css ≠ []) :
    ∃ m b rest, tryRootAt (rootGap css.length css).2 = some ((m, b), rest) ∧
      rootSplit css = (rootGap css.length css).1 :: m :: (rootScanGo css.length rest).1 ∧
      rootBlocks css = (m, b) :: (rootScanGo css.length rest).2 := by
  cases hv : tryRootAt (rootGap css.length css).2 with
  | none =>
    exfalso
    apply h
    unfold rootBlocks
    simp only [rootScanGo, hv]
  | some pr =>
    obtain ⟨mb, rest⟩ := pr
    obtain ⟨m, b⟩ := mb
    refine ⟨m, b, rest, rfl, ?_, ?_⟩
    · unfold rootSplit
      simp only [rootScanGo, hv]
    · unfold rootBlocks
      simp only [rootScanGo, hv]

/-! Computation of the scanner on a well-formed reference written as
`var(name)` or `var(name, fallback)`. -/

theorem takeWhile_cons_neg (p : Char → Bool) (c : Char) (z : List Char) (hc : p c = false) :
    (c :: z).takeWhile p = [] ∧ (c :: z).dropWhile p = c :: z := by
  constructor <;> simp [List.takeWhile, List.dropWhile, hc]

theorem takeWhile_cons_pos (p : Char → Bool) (c : Char) (z : List Char) (hc : p c = true) :
    (c :: z).takeWhile p = c :: z.takeWhile p ∧ (c :: z).dropWhile p = z.dropWhile p := by
  constructor <;> simp [List.takeWhile, List.dropWhile, hc]

theorem varScanGo_nil : ∀ f : Nat, varScanGo f [] = [VarChunk.text []] := by
  intro f
  cases f with
  | zero => rfl
  | succ f =>
    have h : tryVarAt ([] : List Char) = none := by decide
    simp [varScanGo, varGap, h]

theorem normalizeVars_single {I : List Char} {vm : VarM}
    (h : tryVarAt I = some (vm, [])) :
    normalizeVars I = normalize_var vm := by
  cases I with
  | nil =>
    have h0 : tryVarAt ([] : List Char) = none := by decide
    rw [h0] at h
    exact Option.noConfusion h
  | cons c t =>
    unfold normalizeVars varChunks
    have hs : (tryVarAt (c :: t)).isSome = true := by simp [h]
    have hg : varGap (t.length + 1) (c :: t) = ([], c :: t) := by
      simp [varGap, hs]
    simp [varScanGo, varGap, hg, h, varScanGo_nil, joinChunksWith, renderChunk]

theorem tryVarAt_make (t fb : List Char) (ht : t ≠ [])
    (htc : ∀ c ∈ t, isNameChar c = true) (hf : fb ≠ [])
    (hfc : ∀ c ∈ fb, ¬(c = ')'))
    (hfh : ∀ c ∈ fb.take 1, isWs c = false) :
    tryVarAt ("var(".data ++ ("--ctc-".data ++ t) ++ (',' :: ' ' :: fb) ++ [')']) =
      some ({ matched := "var(".data ++ ("--ctc-".data ++ t) ++ (',' :: ' ' :: fb) ++ [')'],
              name := "--ctc-".data ++ t, fallback := some fb }, []) := by
  have e0 : "var(".data ++ ("--ctc-".data ++ t) ++ (',' :: ' ' :: fb) ++ [')'] =
      "var(".data ++ ("--ctc-".data ++ (t ++ (',' :: ((' ' :: fb) ++ [')'])))) := by
    simp [List.append_assoc]
  have hE1 : pfxDrop "var(".data
      ("var(".data ++ ("--ctc-".data ++ t) ++ (',' :: ' ' :: fb) ++ [')']) =
      some ("--ctc-".data ++ (t ++ (',' :: ((' ' :: fb) ++ [')'])))) := by
    rw [e0]
    exact pfxDrop_self _ _
  have econs : "--ctc-".data ++ (t ++ (',' :: ((' ' :: fb) ++ [')']))) =
      '-' :: ('-' :: 'c' :: 't' :: 'c' :: '-' ::
        (t ++ (',' :: ((' ' :: fb) ++ [')'])))) := rfl
  have hE2 : ("--ctc-".data ++ (t ++ (',' :: ((' ' :: fb) ++ [')'])))).takeWhile isWs
      = [] := by
    rw [econs]
    exact (takeWhile_cons_neg isWs '-' _ (by decide)).1
  have hE3 : ("--ctc-".data ++ (t ++ (',' :: ((' ' :: fb) ++ [')'])))).dropWhile isWs
      = "--ctc-".data ++ (t ++ (',' :: ((' ' :: fb) ++ [')']))) := by
    conv_lhs => rw [econs]
    rw [(takeWhile_cons_neg isWs '-' _ (by decide)).2]
    exact econs.symm
  have hE4 : pfxDrop "--ctc-".data
      ("--ctc-".data ++ (t ++ (',' :: ((' ' :: fb) ++ [')'])))) =
      some (t ++ (',' :: ((' ' :: fb) ++ [')']))) := pfxDrop_self _ _
  have hname := takeWhile_stop t ',' ((' ' :: fb) ++ [')']) htc (by decide)
  have hte : t.isEmpty = false := by
    cases t with
    | nil => exact absurd rfl ht
    | cons a b => rfl
  have hcomma := takeWhile_cons_neg isWs ',' ((' ' :: fb) ++ [')']) (by decide)
  have hall : ∀ c ∈ (' ' :: fb), (fun c => decide (c ≠ ')')) c = true := by
    intro c hc
    rcases List.mem_cons.mp hc with h | h
    · subst h; decide
    · simp [hfc c h]
  have hu := takeWhile_stop (' ' :: fb) ')' [] hall (by decide)
  have hwfb : fb.takeWhile isWs = [] := by
    cases fb with
    | nil => rfl
    | cons c0 fbt =>
      exact (takeWhile_cons_neg isWs c0 fbt (hfh c0 (by simp))).1
  have hwu : (' ' :: fb).takeWhile isWs = [' '] := by
    rw [(takeWhile_cons_pos isWs ' ' fb (by decide)).1, hwfb]
  have hfb1 : 1 ≤ fb.length := by
    cases fb with
    | nil => exact absurd rfl hf
    | cons c0 fbt => simp
  have hmin : min ([' '].length) ((' ' :: fb).length - 1) = 1 := by
    simp [Nat.min_eq_left hfb1]
  simp only [tryVarAt, hE1, hE2, hE3, hE4, hname.1, hname.2, hte, hcomma.1, hcomma.2,
    hu.1, hu.2, hwu, hmin, Bool.false_eq_true, if_false]
  simp [List.append_assoc]

theorem tryVarAt_make_nf (t : List Char) (ht : t ≠ [])
    (htc : ∀ c ∈ t, isNameChar c = true) :
    tryVarAt ("var(".data ++ ("--ctc-".data ++ t) ++ [')']) =
      some ({ matched := "var(".data ++ ("--ctc-".data ++ t) ++ [')'],
              name := "--ctc-".data ++ t, fallback := none }, []) := by
  have e0 : "var(".data ++ ("--ctc-".data ++ t) ++ [')'] =
      "var(".data ++ ("--ctc-".data ++ (t ++ [')'])) := by
    simp [List.append_assoc]
  have hE1 : pfxDrop "var(".data ("var(".data ++ ("--ctc-".data ++ t) ++ [')']) =
      some ("--ctc-".data ++ (t ++ [')'])) := by
    rw [e0]
    exact pfxDrop_self _ _
  have econs : "--ctc-".data ++ (t ++ [')']) =
      '-' :: ('-' :: 'c' :: 't' :: 'c' :: '-' :: (t ++ [')'])) := rfl
  have hE2 : ("--ctc-".data ++ (t ++ [')'])).takeWhile isWs = [] := by
    rw [econs]
    exact (takeWhile_cons_neg isWs '-' _ (by decide)).1
  have hE3 : ("--ctc-".data ++ (t ++ [')'])).dropWhile isWs =
      "--ctc-".data ++ (t ++ [')']) := by
    conv_lhs => rw [econs]
    rw [(takeWhile_cons_neg isWs '-' _ (by decide)).2]
    exact econs.symm
  have hE4 : pfxDrop "--ctc-".data ("--ctc-".data ++ (t ++ [')'])) =
      some (t ++ [')']) := pfxDrop_self _ _
  have hname := takeWhile_stop t ')' [] htc (by decide)
  have hte : t.isEmpty = false := by
    cases t with
    | nil => exact absurd rfl ht
    | cons a b => rfl
  have hparen := takeWhile_cons_neg isWs ')' ([] : List Char) (by decide)
  simp only [tryVarAt, hE1, hE2, hE3, hE4, hname.1, hname.2, hte, hparen.1, hparen.2,
    Bool.false_eq_true, if_false]
  simp [List.append_assoc]

/-! Structural facts about the validator. -/

theorem validate_issues (s : String) : (validate s).issues =
    dupRootIssues s.data ++ invalidVarIssues s.data ++ brandColorIssues s.data := rfl

theorem validate_warnings (s : String) : (validate s).warnings =
    invalidVarWarnings s.data ++ brandColorWarnings s.data ++
      typographyWarnings s.data ++ genericWarnings s.data := rfl

theorem validate_passed (s : String) : (validate s).passed =
    (dupRootIssues s.data ++ invalidVarIssues s.data ++ brandColorIssues s.data).isEmpty :=
  rfl

theorem validate_score (s : String) : (validate s).score =
    max 0 (100 - 25 * ((validate s).issues.length : Int) -
      5 * ((validate s).warnings.length : Int)) := rfl

theorem mem_insertIfAbsent {x y : List Char} {xs : List (List Char)} :
    y ∈ insertIfAbsent x xs → y ∈ xs ∨ y = x := by
  unfold insertIfAbsent
  split
  · intro h
    exact Or.inl h
  · intro h
    rcases List.mem_append.mp h with h | h
    · exact Or.inl h
    · right
      simpa using h

theorem invScan_mono : ∀ (ns set : List (List Char)) (ws : List String) (w : String),
    w ∈ ws → w ∈ (invScan ns set ws).2 := by
  intro ns
  induction ns with
  | nil => intro set ws w hw; exact hw
  | cons n rest ih =>
    intro set ws w hw
    simp only [invScan]
    apply ih
    split <;> split <;> first
    | exact hw
    | exact List.mem_append_left _ hw

theorem invScan_warn : ∀ (ns set : List (List Char)) (ws : List String) (n : List Char),
    n ∈ ns → invalidPattern n = false → String.mk n ∉ VALID_VARIABLES →
    (∀ x ∈ set, invalidPattern x = true) →
    ("Unknown variable: " ++ String.mk n) ∈ (invScan ns set ws).2 := by
  intro ns
  induction ns with
  | nil =>
    intro set ws n hn
    exact absurd hn (by simp)
  | cons m rest ih =>
    intro set ws n hn hp hv hset
    rcases List.mem_cons.mp hn with he | hmem
    · subst he
      simp only [invScan]
      have hset2 : (if invalidPattern n then insertIfAbsent n set else set) = set := by
        rw [if_neg (by simp [hp])]
      rw [hset2]
      have hnot : ¬(n ∈ set) := by
        intro hm
        have := hset n hm
        rw [hp] at this
        exact Bool.false_ne_true this
      apply invScan_mono
      split
      · next hcond => simp [hv, hnot] at hcond
      · simp
    · simp only [invScan]
      apply ih _ _ _ hmem hp hv
      intro x hx
      by_cases hpm : invalidPattern m = true
      · rw [if_pos hpm] at hx
        rcases mem_insertIfAbsent hx with h | h
        · exact hset x h
        · subst h
          exact hpm
      · rw [if_neg hpm] at hx
        exact hset x hx

theorem invScan_set_id : ∀ (ns set : List (List Char)) (ws : List String),
    (∀ n ∈ ns, invalidPattern n = false) → (invScan ns set ws).1 = set := by
  intro ns
  induction ns with
  | nil => intro set ws _; rfl
  | cons m rest ih =>
    intro set ws h
    simp only [invScan]
    have hm : invalidPattern m = false := h m (by simp)
    rw [if_neg (by simp [hm])]
    exact ih _ _ fun n hn => h n (List.mem_cons_of_mem _ hn)

/-- C7: for every input StyleText, the Validator's Report satisfies
score = max(0, 100 - 25 * (number of critical issues) - 5 * (number of
warnings)), and passed = true exactly when the critical-issue list is empty, so
warnings alone never make passed false. -/
theorem C7_score_and_passed (css : String) :
    (validate css).score = max 0 (100 - 25 * ((validate css).issues.length : Int) -
      5 * ((validate css).warnings.length : Int)) ∧
    ((validate css).passed = true ↔ (validate css).issues = []) := by
  refine ⟨validate_score css, ?_⟩
  rw [validate_passed css, ← validate_issues css]
  exact List.isEmpty_iff

/-- C10: for every input StyleText with no root-block match at all (the empty
string included), the Validator adds the critical Issue
"CRITICAL: No :root declaration found" and its Report has passed = false, so
style text without a root token-declaration block can never pass validation. -/
theorem C10_no_root_fails (css : String) (h : rootMatches css.data = []) :
    noRootMsg ∈ (validate css).issues ∧ (validate css).passed = false := by
  have hblocks : rootBlocks css.data = [] := by
    unfold rootMatches at h
    exact List.map_eq_nil_iff.mp h
  have hbody : firstRootBody css.data = none := by
    unfold firstRootBody
    rw [hblocks]
    rfl
  have hbrand : brandColorIssues css.data = [noRootMsg] := by
    unfold brandColorIssues
    rw [hbody]
  constructor
  · rw [validate_issues]
    refine List.mem_append.mpr (Or.inr ?_)
    rw [hbrand]
    simp
  · rw [validate_passed, hbrand]
    simp

/-- Witness for C10 at the empty document. -/
theorem C10_witness :
    rootMatches "".data = [] ∧
      noRootMsg ∈ (validate "").issues ∧ (validate "").passed = false :=
  ⟨by decide, C10_no_root_fails "" (by decide)⟩

/-! Inputs used by the claim-level theorems. -/

/-- Two regex-matched root blocks where the first block's closing brace sits
inside a literal-collapsing var() fallback. -/
def cssBraceEater : String := ":root \x7bvar(--ctc-spacing-0, a\x7d b) :root \x7bc\x7d"

/-- Two plain root blocks. -/
def cssTwoRoots : String := ":root \x7ba\x7d :root \x7bb\x7d"

/-- A complete single root block plus one reference with an unknown,
pattern-free name. -/
def cssUnknownVar : String :=
  ":root \x7b--ctc-primary: #000; --ctc-secondary: #111; --ctc-accent: #222; --ctc-font-heading: Georgia; --ctc-font-body: Georgia;\x7d .a \x7bcolor: var(--ctc-totally-made-up);\x7d"

/-- Three root blocks whose --ctc-primary values repeat a value. -/
def cssConflict3 : String :=
  ":root \x7b--ctc-primary: #0A0A0A;\x7d :root \x7b--ctc-primary: #0B0B0B;\x7d :root \x7b--ctc-primary: #0A0A0A;\x7d"

/-- A reference whose fallback has an unmatched opening parenthesis. -/
def cssUnbal : String := "var(--ctc-neutral-700, (#333)"

/-- A reference name split by a nested literal-collapsing reference. -/
def cssSplice : String := "var(--ctc-spacing-var(--ctc-spacing-0, x))"

/-- First root block containing a normalizable reference, plus a duplicate. -/
def cssFirstBlockVar : String := ":root \x7bcolor: var(--ctc-neutral-700);\x7d :root \x7bx\x7d"

/-- C1 counterexample: an input with two regex-matched root blocks for which
post_process_css returns a text with ZERO active root blocks — the
normalization step deletes the closing brace of the surviving block, so it is
not true that exactly one active block always remains. -/
theorem C1_counterexample :
    (rootMatches cssBraceEater.data).length = 2 ∧
    (rootMatches (post_process_css cssBraceEater).data).length = 0 := by
  constructor
  · decide
  · decide

/-- C1 amended: the resolution (root-stripping) step alone does what the claim
says — for N ≤ 1 root-block matches the text is returned unchanged, and for
N ≥ 2 the split parts rejoin to the input, the output is the rebuild in which
exactly one part passing the root-prefix test remains and every other such
part is replaced in place by the marker comment — but the subsequent var()
normalization can then destroy the surviving block, so the claim holds of the
resolution step, not of the whole of post_process_css. -/
theorem C1_amended (css : String) :
    ((rootMatches css.data).length ≤ 1 → post_root_strip css.data = css.data) ∧
    (2 ≤ (rootMatches css.data).length →
      joinL (rootSplit css.data) = css.data ∧
      post_root_strip css.data = joinL (stripRebuild false (rootSplit css.data)) ∧
      countHeads (stripRebuild false (rootSplit css.data)) = 1 ∧
      countEq marker (stripRebuild false (rootSplit css.data)) =
        countHeads (rootSplit css.data) - 1 + countEq marker (rootSplit css.data)) := by
  constructor
  · intro h
    unfold post_root_strip
    rw [if_neg (by omega)]
  · intro h
    have hjoin : joinL (rootSplit css.data) = css.data := rootScan_join _ _
    have hne : rootBlocks css.data ≠ [] := by
      intro hcon
      unfold rootMatches at h
      rw [hcon] at h
      simp at h
    obtain ⟨m, b, rest, hv, hsplit, hblocks⟩ := rootScan_shape hne
    have hmhead : rootHeadB m = true := (tryRootAt_sound hv).2.2
    have hcount1 : 1 ≤ countHeads (rootSplit css.data) := by
      rw [hsplit, countHeads_cons, countHeads_cons]
      simp [hmhead]
      omega
    refine ⟨hjoin, ?_, ?_, ?_⟩
    · unfold post_root_strip
      rw [if_pos (by omega)]
    · rw [countHeads_strip_false]
      omega
    · exact countEq_marker_strip_false _ hcount1

/-- Witness for the amended C1 at a concrete two-block document (and, for the
unchanged branch, at a one-block document). -/
theorem C1_amended_witness :
    post_root_strip ":root \x7ba\x7d".data = ":root \x7ba\x7d".data ∧
    (2 ≤ (rootMatches cssTwoRoots.data).length ∧
      (joinL (rootSplit cssTwoRoots.data) = cssTwoRoots.data ∧
        post_root_strip cssTwoRoots.data =
          joinL (stripRebuild false (rootSplit cssTwoRoots.data)) ∧
        countHeads (stripRebuild false (rootSplit cssTwoRoots.data)) = 1 ∧
        countEq marker (stripRebuild false (rootSplit cssTwoRoots.data)) =
          countHeads (rootSplit cssTwoRoots.data) - 1 +
            countEq marker (rootSplit cssTwoRoots.data))) :=
  ⟨(C1_amended ":root \x7ba\x7d").1 (by decide),
   by decide, (C1_amended cssTwoRoots).2 (by decide)⟩

/-- C2 counterexample: validating a document containing
var(--ctc-totally-made-up) — a name that is neither canonical nor in the
normalization table — produces NO critical issue and passed = true, refuting
the claim that such a reference is critical and forces passed = false. -/
theorem C2_counterexample :
    (validate cssUnknownVar).passed = true ∧
    (validate cssUnknownVar).issues = [] ∧
    ("Unknown variable: " ++ String.mk "--ctc-totally-made-up".data) ∈
      (validate cssUnknownVar).warnings := by
  refine ⟨by decide, by decide, by decide⟩

/-- C2 amended: a var() reference name yields the critical invalid-variables
issue only when it matches one of the INVALID_PATTERNS; when no reference name
matches any pattern the invalid-variables check contributes no critical issue,
and a name that matches no pattern and is not in VALID_VARIABLES is reported
as the warning "Unknown variable: name" instead (warnings never block
passed). -/
theorem C2_amended (css : String) :
    ((∀ n ∈ varNames css.data, invalidPattern n = false) →
      invalidVarIssues css.data = []) ∧
    (∀ n ∈ varNames css.data, invalidPattern n = false →
      String.mk n ∉ VALID_VARIABLES →
      ("Unknown variable: " ++ String.mk n) ∈ (validate css).warnings) := by
  constructor
  · intro h
    unfold invalidVarIssues invalidVarsSet
    rw [invScan_set_id _ _ _ h]
    rfl
  · intro n hn hp hv
    rw [validate_warnings]
    refine List.mem_append.mpr (Or.inl ?_)
    refine List.mem_append.mpr (Or.inl ?_)
    refine List.mem_append.mpr (Or.inl ?_)
    unfold invalidVarWarnings
    refine invScan_warn _ _ _ _ hn hp hv ?_
    intro x hx
    exact absurd hx (by simp)

/-- Witness for the amended C2 at the unknown-variable document. -/
theorem C2_amended_witness :
    "--ctc-totally-made-up".data ∈ varNames cssUnknownVar.data ∧
    invalidPattern "--ctc-totally-made-up".data = false ∧
    ("Unknown variable: " ++ String.mk "--ctc-totally-made-up".data) ∈
      (validate cssUnknownVar).warnings :=
  ⟨by decide, by decide,
   (C2_amended cssUnknownVar).2 "--ctc-totally-made-up".data
     (by decide) (by decide) (by decide)⟩

/-- C3 counterexample: a reference whose fallback contains an unmatched
opening parenthesis is NOT left untouched — the scanner still matches up to
the first closing parenthesis and rewrites the name. -/
theorem C3_counterexample : post_process_css cssUnbal ≠ cssUnbal := by decide

/-- C3 amended: the scanner stops at the FIRST closing parenthesis instead of
tracking depth: the captured fallback of a nested reference is truncated
there; a name rewrite re-emits the truncated capture and leaves the tail in
place, so the full fallback text still survives in the output; a reference
with an unmatched opening parenthesis in its fallback is rewritten rather
than left untouched; and a reference with no closing parenthesis at all is
left untouched but is NOT reported (the validator sees no match either). -/
theorem C3_amended :
    tryVarAt "var(--ctc-neutral-700, var(--ctc-accent))".data =
      some ({ matched := "var(--ctc-neutral-700, var(--ctc-accent)".data,
              name := "--ctc-neutral-700".data,
              fallback := some "var(--ctc-accent".data }, ")".data) ∧
    post_process_css "var(--ctc-neutral-700, var(--ctc-accent))" =
      "var(--ctc-neutral-dark, var(--ctc-accent))" ∧
    post_process_css cssUnbal = "var(--ctc-neutral-dark, (#333)" ∧
    post_process_css "var(--ctc-neutral-700, #333" = "var(--ctc-neutral-700, #333" ∧
    (validate "var(--ctc-neutral-700, #333").warnings = [] := by
  refine ⟨by decide, by decide, by decide, by decide, by decide⟩

/-- C4 counterexample: with three root blocks whose --ctc-primary values are
a, b, a, the conflicting-values issue lists ALL observed values including the
repeat, not the distinct values in first-seen order. -/
theorem C4_counterexample :
    conflictMsg (distinctL (primaries cssConflict3.data)) ∉
      (validate cssConflict3).issues ∧
    conflictMsg (primaries cssConflict3.data) ∈ (validate cssConflict3).issues ∧
    distinctL (primaries cssConflict3.data) ≠ primaries cssConflict3.data := by
  refine ⟨by decide, by decide, by decide⟩

/-- C4 amended: whenever more than one root block matches and the collected
--ctc-primary values are not all equal, the Report contains the critical
conflicting-brand-color issue listing ALL observed values in source order,
repeats included. -/
theorem C4_amended (css : String) (h1 : 1 < (rootMatches css.data).length)
    (h2 : 1 < (distinctL (primaries css.data)).length) :
    conflictMsg (primaries css.data) ∈ (validate css).issues := by
  rw [validate_issues]
  refine List.mem_append.mpr (Or.inl (List.mem_append.mpr (Or.inl ?_)))
  simp only [dupRootIssues]
  rw [if_pos h1, if_pos h2]
  simp

/-- Witness for the amended C4 at the three-block document. -/
theorem C4_amended_witness :
    1 < (rootMatches cssConflict3.data).length ∧
    1 < (distinctL (primaries cssConflict3.data)).length ∧
    conflictMsg (primaries cssConflict3.data) ∈ (validate cssConflict3).issues :=
  ⟨by decide, by decide, C4_amended cssConflict3 (by decide) (by decide)⟩

/-- C5 counterexample: for a literal-mapped name whose fallback is a nested
reference, the scanner-matched span stops at the first closing parenthesis, so
the rewrite leaves a dangling parenthesis behind — the ENTIRE var(...)
expression is not replaced by the bare literal. -/
theorem C5_counterexample :
    post_process_css "var(--ctc-spacing-0, var(--ctc-accent))" = "0)" ∧
    post_process_css "var(--ctc-spacing-0, var(--ctc-accent))" ≠ "0" := by
  refine ⟨by decide, by decide⟩

/-- C5 amended: for a reference whose fallback is free of closing parentheses
(the scanner's own notion of a fallback), a name with a normalization-table
entry mapping to a literal (an entry not starting with "--") has the whole
scanner-matched var(...) span — fallback clause included — replaced by the
bare literal, with no var() wrapper left; in particular var(--ctc-spacing-0)
and var(--ctc-spacing-0, 4px) both rewrite to the literal 0.  A fallback
containing a closing parenthesis leaves the text after the first one in
place. -/
theorem C5_amended :
    (∀ (t fb : List Char) (v : String), t ≠ [] → (∀ c ∈ t, isNameChar c = true) →
      fb ≠ [] → (∀ c ∈ fb, ¬(c = ')')) → (∀ c ∈ fb.take 1, isWs c = false) →
      mapLookup NORMALIZATION_MAP (String.mk ("--ctc-".data ++ t)) = some v →
      (pfxDrop "--".data v.data).isSome = false →
      normalizeVars ("var(".data ++ ("--ctc-".data ++ t) ++ (',' :: ' ' :: fb) ++ [')']) =
        v.data ∧
      normalizeVars ("var(".data ++ ("--ctc-".data ++ t) ++ [')']) = v.data) ∧
    post_process_css "var(--ctc-spacing-0)" = "0" ∧
    post_process_css "var(--ctc-spacing-0, 4px)" = "0" := by
  refine ⟨?_, by decide, by decide⟩
  intro t fb v ht htc hf hfc hfh hv hlit
  have hv2 : mapLookup NORMALIZATION_MAP
      (String.mk ('-' :: '-' :: 'c' :: 't' :: 'c' :: '-' :: t)) = some v := hv
  constructor
  · rw [normalizeVars_single (tryVarAt_make t fb ht htc hf hfc hfh)]
    simp [normalize_var, hv2, hlit]
  · rw [normalizeVars_single (tryVarAt_make_nf t ht htc)]
    simp [normalize_var, hv2, hlit]

/-- Witness for the amended C5 at the spacing-0 entry with fallback 4px. -/
theorem C5_amended_witness :
    mapLookup NORMALIZATION_MAP (String.mk ("--ctc-".data ++ "spacing-0".data)) =
      some "0" ∧
    normalizeVars ("var(".data ++ ("--ctc-".data ++ "spacing-0".data) ++
      (',' :: ' ' :: "4px".data) ++ [')']) = "0".data :=
  ⟨by decide,
   (C5_amended.1 "spacing-0".data "4px".data "0" (by decide) (by decide) (by decide)
     (by decide) (by decide) (by decide) (by decide)).1⟩

/-- C6: for a reference var(name, fallback) (fallback free of closing
parentheses, as the scanner captures it) whose name maps to a canonical token
name, the normalizer rewrites the whole matched span to
var(canonical, fallback) with the fallback text byte-identical; in particular
var(--ctc-neutral-700, #333) rewrites to var(--ctc-neutral-dark, #333). -/
theorem C6_fallback_preserved :
    (∀ (t fb : List Char) (v : String), t ≠ [] → (∀ c ∈ t, isNameChar c = true) →
      fb ≠ [] → (∀ c ∈ fb, ¬(c = ')')) → (∀ c ∈ fb.take 1, isWs c = false) →
      mapLookup NORMALIZATION_MAP (String.mk ("--ctc-".data ++ t)) = some v →
      (pfxDrop "--".data v.data).isSome = true →
      normalizeVars ("var(".data ++ ("--ctc-".data ++ t) ++ (',' :: ' ' :: fb) ++ [')']) =
        "var(".data ++ v.data ++ ", ".data ++ fb ++ [')']) ∧
    post_process_css "var(--ctc-neutral-700, #333)" = "var(--ctc-neutral-dark, #333)" := by
  refine ⟨?_, by decide⟩
  intro t fb v ht htc hf hfc hfh hv hcanon
  have hv2 : mapLookup NORMALIZATION_MAP
      (String.mk ('-' :: '-' :: 'c' :: 't' :: 'c' :: '-' :: t)) = some v := hv
  rw [normalizeVars_single (tryVarAt_make t fb ht htc hf hfc hfh)]
  simp [normalize_var, hv2, hcanon]

/-- Witness for C6 at the neutral-700 entry with fallback #333. -/
theorem C6_witness :
    mapLookup NORMALIZATION_MAP (String.mk ("--ctc-".data ++ "neutral-700".data)) =
      some "--ctc-neutral-dark" ∧
    normalizeVars ("var(".data ++ ("--ctc-".data ++ "neutral-700".data) ++
      (',' :: ' ' :: "#333".data) ++ [')']) =
      "var(".data ++ "--ctc-neutral-dark".data ++ ", ".data ++ "#333".data ++ [')'] :=
  ⟨by decide,
   C6_fallback_preserved.1 "neutral-700".data "#333".data "--ctc-neutral-dark"
     (by decide) (by decide) (by decide) (by decide) (by decide) (by decide) (by decide)⟩

/-- C8 counterexample: the repair pass is not idempotent — a literal collapse
can splice the surrounding text into a NEW normalizable reference that only
the second pass rewrites. -/
theorem C8_counterexample :
    post_process_css cssSplice = "var(--ctc-spacing-0)" ∧
    post_process_css (post_process_css cssSplice) = "0" ∧
    post_process_css (post_process_css cssSplice) ≠ post_process_css cssSplice := by
  refine ⟨by decide, by decide, by decide⟩

/-- C8 amended: applying post_process_css a second time is the identity on any
text with at most one root-block match and no reference whose name has a
normalization-table entry — so re-processing an output changes nothing
whenever that output satisfies these conditions, but not in general (the
counterexample's output still contains a normalizable reference). -/
theorem C8_amended (css : String) (h1 : (rootMatches css.data).length ≤ 1)
    (h2 : ∀ n ∈ varNames css.data,
      mapLookup NORMALIZATION_MAP (String.mk n) = none) :
    post_process_css css = css := by
  unfold post_process_css post_root_strip
  rw [if_neg (by omega)]
  rw [normalizeVars_id h2]

/-- Witness for the amended C8: the output of processing a two-block document
satisfies the conditions, and re-processing it is the identity. -/
theorem C8_amended_witness :
    post_process_css cssFirstBlockVar =
      ":root \x7bcolor: var(--ctc-neutral-dark);\x7d /* [PostProcessor] Stripped duplicate :root */" ∧
    (rootMatches ":root \x7bcolor: var(--ctc-neutral-dark);\x7d /* [PostProcessor] Stripped duplicate :root */".data).length ≤ 1 ∧
    post_process_css ":root \x7bcolor: var(--ctc-neutral-dark);\x7d /* [PostProcessor] Stripped duplicate :root */" =
      ":root \x7bcolor: var(--ctc-neutral-dark);\x7d /* [PostProcessor] Stripped duplicate :root */" :=
  ⟨by decide, by decide,
   C8_amended ":root \x7bcolor: var(--ctc-neutral-dark);\x7d /* [PostProcessor] Stripped duplicate :root */"
     (by decide) (by decide)⟩

/-- C9 counterexample: for a document with two root blocks whose first block
contains a normalizable reference, the first root block of the
post_process_css output differs from the first root block of the input — it
is not kept byte-identical by the whole repair pass. -/
theorem C9_counterexample :
    2 ≤ (rootMatches cssFirstBlockVar.data).length ∧
    (rootMatches (post_process_css cssFirstBlockVar).data).head? ≠
      (rootMatches cssFirstBlockVar.data).head? := by
  refine ⟨by decide, by decide⟩

/-- C9 amended: the resolution (root-stripping) step keeps the first
matched root block byte-identical and in place — the input and the stripped
output share the same prefix followed by that block — while the subsequent
normalization step may still rewrite references inside it. -/
theorem C9_amended (css : String) (h : 2 ≤ (rootMatches css.data).length) :
    ∃ pre t u, css.data = pre ++ (rootMatches css.data).headI ++ t ∧
      post_root_strip css.data = pre ++ (rootMatches css.data).headI ++ u := by
  have hne : rootBlocks css.data ≠ [] := by
    intro hcon
    unfold rootMatches at h
    rw [hcon] at h
    simp at h
  obtain ⟨m, b, rest, hv, hsplit, hblocks⟩ := rootScan_shape hne
  have hhead : (rootMatches css.data).headI = m := by
    unfold rootMatches
    rw [hblocks]
    rfl
  have hsound := tryRootAt_sound hv
  have hgapjoin := rootGap_join css.data.length css.data
  refine ⟨(rootGap css.data.length css.data).1,
    joinL ((rootScanGo css.data.length rest).1),
    joinL (stripRebuild true ((rootScanGo css.data.length rest).1)), ?_, ?_⟩
  · rw [hhead]
    conv_lhs => rw [← hgapjoin]
    rw [hsound.1, rootScan_join css.data.length rest, List.append_assoc]
  · rw [hhead]
    unfold post_root_strip
    rw [if_pos (by omega)]
    rw [hsplit]
    have hgap : rootHeadB (rootGap css.data.length css.data).1 = false := by
      refine rootGap_not_head css.data.length css.data _ _ rfl ?_
      rw [hv]
      rfl
    have hgap2 : rootHeadB (rootGap css.length css.data).1 = false := hgap
    have hsr : stripRebuild false ((rootGap css.data.length css.data).1 :: m ::
        (rootScanGo css.data.length rest).1) =
        (rootGap css.data.length css.data).1 :: m ::
          stripRebuild true ((rootScanGo css.data.length rest).1) := by
      simp [stripRebuild, hgap, hgap2, hsound.2.2]
    rw [hsr]
    simp [joinL, List.append_assoc]

/-- Witness for the amended C9 at the two-block document. -/
theorem C9_amended_witness :
    2 ≤ (rootMatches cssFirstBlockVar.data).length ∧
    ∃ pre t u, cssFirstBlockVar.data =
        pre ++ (rootMatches cssFirstBlockVar.data).headI ++ t ∧
      post_root_strip cssFirstBlockVar.data =
        pre ++ (rootMatches cssFirstBlockVar.data).headI ++ u :=
  ⟨by decide, C9_amended cssFirstBlockVar (by decide)⟩

end CssTokens
